import Mathlib

/-!
Verification model of the single-page to-do list manager (src/script.js).

The program keeps an ordered sequence of task records in the browser's
local storage under one key, serialized as JSON.  This file gives a
shallow embedding of that program:

* `Task` is the record shape `(name, date, priority, completed)`.
* `Json`, `Json.stringify` and `Json.parse` model the platform JSON
  codec used by `saveTodoList`/`loadTodoList`.  `Json.parse` is a real
  executable recursive-descent parser over the characters of the stored
  string (fuel-bounded; the fuel `length + 1` is always sufficient, see
  the comment at `Json.parse`).  Numeric literals are kept as their raw
  text (`Json.num`), since the program never stores numbers and the
  claims never mention them; floating-point semantics are out of scope.
* `loadTodoList`, `saveTodoList`, `addItem`, `deleteItem`,
  `toggleComplete` mirror the functions of the same names in
  src/script.js.  Storage is passed explicitly; `loadTodoList` returns
  `Except JsError Json` because the JavaScript code calls `JSON.parse`
  with no try/catch, so an unreadable stored string raises an exception
  that propagates out of `loadTodoList`.
* `renderBuckets` models the categorize-and-sort part of
  `renderTodoList`: dates `YYYY-MM-DD` are parsed to an epoch day count
  (`daysFromCivil`, the standard civil-from-days algorithm), mirroring
  `new Date(s)` followed by midnight normalization; `new Date()` of the
  evaluation moment, normalized to midnight, is the `today : Int`
  parameter.  Time zones are not modeled: both sides of the comparison
  are taken on the same calendar scale, as the spec describes.
  `Array.prototype.sort` with the comparator
  `(a, b) => new Date(a.item.date) - new Date(b.item.date)` is modeled
  by an insertion sort over the same key; for parseable dates the
  comparator is a total preorder, and on unparseable dates (where the
  JavaScript comparator returns NaN, treated as a tie) the engine order
  is not specified, so nothing beyond the comparator semantics is used.
-/

namespace TodoApp

/-- One to-do entry, the record shape produced by `addItem` in
src/script.js and stored in local storage. -/
structure Task where
  name : String
  date : String
  priority : String
  completed : Bool
deriving Repr, DecidableEq, Inhabited

/-- JSON values, the result type of the platform `JSON.parse`.  Numeric
literals are kept as their raw source text: the program never stores or
reads numbers, and modeling IEEE floats is out of scope. -/
inductive Json where
  | null : Json
  | bool : Bool → Json
  | num : String → Json
  | str : String → Json
  | arr : List Json → Json
  | obj : List (String × Json) → Json
deriving Repr

/-- The opening curly brace character (written via its code point so
that no brace appears inside a character literal). -/
def braceL : Char := Char.ofNat 123

/-- The closing curly brace character. -/
def braceR : Char := Char.ofNat 125

/-- Lower-case hexadecimal digit, as produced by the JSON unicode
escape of `JSON.stringify`. -/
def hexDigitChar (n : Nat) : Char :=
  if n < 10 then Char.ofNat (48 + n) else Char.ofNat (87 + n)

/-- How `JSON.stringify` quotes one character of a string: the two
character escapes for quote, backslash, backspace, tab, newline,
formfeed and carriage return; a `\u00xx` escape for the remaining
control characters; every other character is kept as itself. -/
def escapeChar (c : Char) : List Char :=
  if c = '"' then ['\\', '"']
  else if c = '\\' then ['\\', '\\']
  else if c.toNat = 8 then ['\\', 'b']
  else if c = '\t' then ['\\', 't']
  else if c = '\n' then ['\\', 'n']
  else if c.toNat = 12 then ['\\', 'f']
  else if c = '\r' then ['\\', 'r']
  else if c.toNat < 32 then
    ['\\', 'u', '0', '0', hexDigitChar (c.toNat / 16), hexDigitChar (c.toNat % 16)]
  else [c]

/-- The characters of the JSON string literal for `s` (including the
surrounding quotes), as produced by `JSON.stringify`. -/
def quoteJString (s : String) : List Char :=
  '"' :: (s.data.flatMap escapeChar ++ ['"'])

mutual

/-- The characters `JSON.stringify` produces for a value (no spacing
argument, hence no whitespace; object keys in insertion order). -/
def jsonToChars : Json → List Char
  | Json.null => ['n', 'u', 'l', 'l']
  | Json.bool true => ['t', 'r', 'u', 'e']
  | Json.bool false => ['f', 'a', 'l', 's', 'e']
  | Json.num raw => raw.data
  | Json.str s => quoteJString s
  | Json.arr xs => '[' :: (arrayToChars xs ++ [']'])
  | Json.obj ms => braceL :: (membersToChars ms ++ [braceR])

/-- Comma-separated element list of a JSON array literal. -/
def arrayToChars : List Json → List Char
  | [] => []
  | [x] => jsonToChars x
  | x :: y :: xs => jsonToChars x ++ (',' :: arrayToChars (y :: xs))

/-- Comma-separated member list of a JSON object literal. -/
def membersToChars : List (String × Json) → List Char
  | [] => []
  | [(k, v)] => quoteJString k ++ (':' :: jsonToChars v)
  | (k, v) :: m :: ms =>
      quoteJString k ++ (':' :: (jsonToChars v ++ (',' :: membersToChars (m :: ms))))

end

/-- The model of `JSON.stringify` (single argument form). -/
def Json.stringify (j : Json) : String :=
  String.mk (jsonToChars j)

/-- JSON insignificant whitespace. -/
def isJsonWs (c : Char) : Bool :=
  c = ' ' || c = '\t' || c = '\n' || c = '\r'

/-- Drop leading JSON whitespace. -/
def skipWs : List Char → List Char
  | [] => []
  | c :: cs => if isJsonWs c then skipWs cs else c :: cs

/-- Value of one hexadecimal digit, if the character is one. -/
def hexVal (c : Char) : Option Nat :=
  if '0' ≤ c ∧ c ≤ '9' then some (c.toNat - 48)
  else if 'a' ≤ c ∧ c ≤ 'f' then some (c.toNat - 87)
  else if 'A' ≤ c ∧ c ≤ 'F' then some (c.toNat - 55)
  else none

/-- The character denoted by a two-character JSON escape sequence. -/
def decodeEscape (c : Char) : Option Char :=
  if c = '"' then some '"'
  else if c = '\\' then some '\\'
  else if c = '/' then some '/'
  else if c = 'b' then some (Char.ofNat 8)
  else if c = 'f' then some (Char.ofNat 12)
  else if c = 'n' then some '\n'
  else if c = 'r' then some '\r'
  else if c = 't' then some '\t'
  else none

/-- Decode one escape sequence of a JSON string literal (the backslash
has been consumed): a `\u` escape with four hexadecimal digits, or a
two-character escape. -/
def parseEscape : List Char → Option (Char × List Char)
  | 'u' :: h1 :: h2 :: h3 :: h4 :: cs2 =>
    match hexVal h1, hexVal h2, hexVal h3, hexVal h4 with
    | some a, some b, some g, some d =>
      some (Char.ofNat (4096 * a + 256 * b + 16 * g + d), cs2)
    | _, _, _, _ => none
  | e :: cs2 =>
    match decodeEscape e with
    | some ch => some (ch, cs2)
    | none => none
  | [] => none

/-- Parse the body of a JSON string literal (the opening quote has been
consumed); returns the decoded characters and the remaining input.
Raw control characters are rejected, as in `JSON.parse`.  Fuel-bounded;
every step consumes at least one input character, so fuel
`input length + 1` is always enough. -/
def parseJStringChars : Nat → List Char → Option (List Char × List Char)
  | 0, _ => none
  | fuel + 1, cs =>
    match cs with
    | [] => none
    | c :: cs2 =>
      if c = '"' then some ([], cs2)
      else if c = '\\' then
        match parseEscape cs2 with
        | some (ch, cs3) =>
          (parseJStringChars fuel cs3).map (fun p => (ch :: p.1, p.2))
        | none => none
      else if c.toNat < 32 then none
      else (parseJStringChars fuel cs2).map (fun p => (c :: p.1, p.2))

/-- Longest prefix of decimal digits and the rest of the input. -/
def spanDigits : List Char → List Char × List Char
  | [] => ([], [])
  | c :: cs =>
    if c.isDigit then
      let p := spanDigits cs
      (c :: p.1, p.2)
    else ([], c :: cs)

/-- Optional fraction part of a JSON number literal. -/
def parseFracPart : List Char → Option (List Char × List Char)
  | '.' :: r =>
    match spanDigits r with
    | ([], _) => none
    | (ds, r2) => some ('.' :: ds, r2)
  | cs => some ([], cs)

/-- Optional exponent part of a JSON number literal. -/
def parseExpPart : List Char → Option (List Char × List Char)
  | c :: r =>
    if c = 'e' ∨ c = 'E' then
      let p :=
        match r with
        | s :: r2 => if s = '+' ∨ s = '-' then ([s], r2) else (([] : List Char), r)
        | [] => (([] : List Char), r)
      match spanDigits p.2 with
      | ([], _) => none
      | (ds, r2) => some (c :: (p.1 ++ ds), r2)
    else some ([], c :: r)
  | [] => some ([], [])

/-- A JSON number literal, returned as its raw matched text (leading
zeros rejected, per the JSON grammar). -/
def parseNumberChars (cs : List Char) : Option (List Char × List Char) :=
  let sp :=
    match cs with
    | c :: r => if c = '-' then ([c], r) else (([] : List Char), cs)
    | [] => (([] : List Char), cs)
  match spanDigits sp.2 with
  | ([], _) => none
  | (ip, cs2) =>
    if 2 ≤ ip.length ∧ ip.headD 'x' = '0' then none
    else
      match parseFracPart cs2 with
      | none => none
      | some (fp, cs3) =>
        match parseExpPart cs3 with
        | none => none
        | some (ep, cs4) => some (sp.1 ++ ip ++ fp ++ ep, cs4)

mutual

/-- One JSON value (leading whitespace allowed), with the remaining
input; fuel-bounded recursion, one unit of fuel per nesting step. -/
def parseJValue : Nat → List Char → Option (Json × List Char)
  | 0, _ => none
  | fuel + 1, cs0 =>
    match skipWs cs0 with
    | [] => none
    | c :: cs =>
      if c = '"' then
        (parseJStringChars (cs.length + 1) cs).map
          (fun p => (Json.str (String.mk p.1), p.2))
      else if c = 't' then
        match cs with
        | 'r' :: 'u' :: 'e' :: r => some (Json.bool true, r)
        | _ => none
      else if c = 'f' then
        match cs with
        | 'a' :: 'l' :: 's' :: 'e' :: r => some (Json.bool false, r)
        | _ => none
      else if c = 'n' then
        match cs with
        | 'u' :: 'l' :: 'l' :: r => some (Json.null, r)
        | _ => none
      else if c = '[' then
        match skipWs cs with
        | c1 :: r =>
          if c1 = ']' then some (Json.arr [], r)
          else (parseArrayItems fuel (c1 :: r)).map (fun p => (Json.arr p.1, p.2))
        | [] => none
      else if c = braceL then
        match skipWs cs with
        | c2 :: r =>
          if c2 = braceR then some (Json.obj [], r)
          else (parseMembers fuel (c2 :: r)).map (fun p => (Json.obj p.1, p.2))
        | [] => none
      else if c = '-' ∨ c.isDigit then
        (parseNumberChars (c :: cs)).map (fun p => (Json.num (String.mk p.1), p.2))
      else none

/-- Nonempty comma-separated array elements, up to and including the
closing bracket. -/
def parseArrayItems : Nat → List Char → Option (List Json × List Char)
  | 0, _ => none
  | fuel + 1, cs =>
    match parseJValue fuel cs with
    | none => none
    | some (v, r) =>
      match skipWs r with
      | ',' :: r2 => (parseArrayItems fuel r2).map (fun p => (v :: p.1, p.2))
      | ']' :: r2 => some ([v], r2)
      | _ => none

/-- Nonempty comma-separated object members, up to and including the
closing brace. -/
def parseMembers : Nat → List Char → Option (List (String × Json) × List Char)
  | 0, _ => none
  | fuel + 1, cs =>
    match skipWs cs with
    | c :: r =>
      if c = '"' then
        match parseJStringChars (r.length + 1) r with
        | none => none
        | some (k, r2) =>
          match skipWs r2 with
          | ':' :: r3 =>
            match parseJValue fuel r3 with
            | none => none
            | some (v, r4) =>
              match skipWs r4 with
              | c2 :: r5 =>
                if c2 = ',' then
                  (parseMembers fuel r5).map
                    (fun p => ((String.mk k, v) :: p.1, p.2))
                else if c2 = braceR then some ([(String.mk k, v)], r5)
                else none
              | [] => none
          | _ => none
      else none
    | [] => none

end

/-- The model of `JSON.parse`: parse one value and require only
whitespace after it.  The fuel `length + 1` is sufficient: every unit
of fuel spent on the path to a recursive call is preceded by at least
one consumed input character, so a successful parse is never cut off. -/
def Json.parse (s : String) : Option Json :=
  match parseJValue (s.length + 1) s.data with
  | some (v, r) => if skipWs r = [] then some v else none
  | none => none

/-- The JSON object the program stores for one task: the object literal
of `addItem` in src/script.js, keys in insertion order. -/
def encodeTask (t : Task) : Json :=
  Json.obj [("name", Json.str t.name), ("date", Json.str t.date),
            ("priority", Json.str t.priority), ("completed", Json.bool t.completed)]

/-- The JSON array the program stores for the whole sequence. -/
def encodeTasks (l : List Task) : Json :=
  Json.arr (l.map encodeTask)

/-- Read one task record back out of its JSON object (used to state
that the serialization is lossless field for field). -/
def decodeTask : Json → Option Task
  | Json.obj [(k1, Json.str n), (k2, Json.str d), (k3, Json.str p), (k4, Json.bool c)] =>
    if k1 = "name" ∧ k2 = "date" ∧ k3 = "priority" ∧ k4 = "completed" then
      some { name := n, date := d, priority := p, completed := c }
    else none
  | _ => none

/-- Decode a list of task objects, failing if any element fails. -/
def decodeTaskList : List Json → Option (List Task)
  | [] => some []
  | x :: xs =>
    match decodeTask x, decodeTaskList xs with
    | some t, some ts => some (t :: ts)
    | _, _ => none

/-- Decode the stored JSON value as a task sequence. -/
def decodeTasks : Json → Option (List Task)
  | Json.arr xs => decodeTaskList xs
  | _ => none

/-- The exception `JSON.parse` raises on unreadable input. -/
inductive JsError where
  | parseError : JsError
deriving Repr, DecidableEq

/-- Model of `loadTodoList` (src/script.js lines 18-21):
`const todoJson = localStorage.getItem('todoList');
 return todoJson ? JSON.parse(todoJson) : [];`
The storage argument is `localStorage.getItem('todoList')` (`none` for
an absent key).  An absent key or the empty string (both falsy) give
the empty array; otherwise `JSON.parse` runs with no try/catch, so a
parse failure is an exception propagating out of the function, modeled
by `Except.error`. -/
def loadTodoList (storage : Option String) : Except JsError Json :=
  match storage with
  | none => Except.ok (Json.arr [])
  | some s =>
    if s = "" then Except.ok (Json.arr [])
    else
      match Json.parse s with
      | some j => Except.ok j
      | none => Except.error JsError.parseError

/-- Model of `saveTodoList` (src/script.js lines 27-29): the string
written to `localStorage.setItem('todoList', JSON.stringify(todoList))`
for a well-typed task sequence. -/
def saveTodoList (todoList : List Task) : String :=
  Json.stringify (encodeTasks todoList)

/-- The whitespace class of the JavaScript `trim()` builtin: ASCII
whitespace, the line and paragraph separators, no-break space, the
Unicode space separators and the byte-order mark. -/
def isJsSpace (c : Char) : Bool :=
  c = ' ' || c = '\t' || c = '\n' || c = '\r' ||
  c.toNat = 11 || c.toNat = 12 || c.toNat = 160 || c.toNat = 5760 ||
  (Nat.ble 8192 c.toNat && Nat.ble c.toNat 8202) ||
  c.toNat = 8232 || c.toNat = 8233 || c.toNat = 8239 || c.toNat = 8287 ||
  c.toNat = 12288 || c.toNat = 65279

/-- Drop leading JavaScript whitespace characters. -/
def dropJsSpace : List Char → List Char
  | [] => []
  | c :: cs => if isJsSpace c then dropJsSpace cs else c :: cs

/-- The model of the JavaScript `trim()` builtin: remove leading and
trailing whitespace. -/
def jsTrim (s : String) : String :=
  String.mk ((dropJsSpace (dropJsSpace s.data.reverse).reverse))

/-- The three input controls read by `addItem`. -/
structure InputState where
  itemName : String
  itemDeadline : String
  itemPriority : String
deriving Repr, DecidableEq

/-- Result of one `addItem` call: the task sequence that is persisted,
the input fields afterwards, and whether the blocking validation alert
was shown. -/
structure AddOutcome where
  todoList : List Task
  inputs : InputState
  alerted : Bool
deriving Repr, DecidableEq

/-- Model of `addItem` (src/script.js lines 120-147).  The name field
is trimmed; if the trimmed name, the deadline or the selected value
is the empty string (falsy), an alert is raised and nothing changes;
otherwise the new record (with the trimmed name and
`completed = false`) is appended, saved, and the inputs are cleared. -/
def addItem (inp : InputState) (todoList : List Task) : AddOutcome :=
  let name := jsTrim inp.itemName
  let date := inp.itemDeadline
  let prio := inp.itemPriority
  if name = "" ∨ date = "" ∨ prio = "" then
    { todoList := todoList, inputs := inp, alerted := true }
  else
    { todoList := todoList ++ [{ name := name, date := date,
                                 priority := prio, completed := false }],
      inputs := { itemName := "", itemDeadline := "", itemPriority := "" },
      alerted := false }

/-- Model of `deleteItem` (src/script.js lines 153-160).  The index
comes from `parseInt` on a data attribute, hence `Int`; in range it
splices the record out and saves, otherwise nothing happens (the body
of the `if` is skipped, no error). -/
def deleteItem (index : Int) (todoList : List Task) : List Task :=
  if 0 ≤ index ∧ index < (todoList.length : Int) then
    todoList.eraseIdx index.toNat
  else todoList

/-- Model of `toggleComplete` (src/script.js lines 166-173).  In range
it flips the `completed` flag of the record at `index` in place and
saves, otherwise nothing happens. -/
def toggleComplete (index : Int) (todoList : List Task) : List Task :=
  if 0 ≤ index ∧ index < (todoList.length : Int) then
    todoList.modify (fun t => { t with completed := !t.completed }) index.toNat
  else todoList

/-- Proleptic Gregorian leap year. -/
def isLeapYear (y : Nat) : Bool :=
  (y % 4 = 0 ∧ y % 100 ≠ 0) ∨ y % 400 = 0

/-- Number of days in a month, used to validate the day component as
`new Date("YYYY-MM-DD")` does. -/
def daysInMonth (y m : Nat) : Nat :=
  if m = 2 then (if isLeapYear y then 29 else 28)
  else if m = 4 ∨ m = 6 ∨ m = 9 ∨ m = 11 then 30
  else 31

/-- Numeric value of a decimal digit character. -/
def digitVal (c : Char) : Nat := c.toNat - 48

/-- Parse a date-only string of the exact shape `YYYY-MM-DD` with
valid month and day components, the format produced by the date input
control and accepted by `new Date` (anything else is an invalid
date). -/
def parseYMD (s : String) : Option (Nat × Nat × Nat) :=
  match s.data with
  | [y1, y2, y3, y4, h1, m1, m2, h2, d1, d2] =>
    if y1.isDigit ∧ y2.isDigit ∧ y3.isDigit ∧ y4.isDigit ∧ h1 = '-' ∧
       m1.isDigit ∧ m2.isDigit ∧ h2 = '-' ∧ d1.isDigit ∧ d2.isDigit then
      let y := 1000 * digitVal y1 + 100 * digitVal y2 + 10 * digitVal y3 + digitVal y4
      let m := 10 * digitVal m1 + digitVal m2
      let d := 10 * digitVal d1 + digitVal d2
      if 1 ≤ m ∧ m ≤ 12 ∧ 1 ≤ d ∧ d ≤ daysInMonth y m then some (y, m, d) else none
    else none
  | _ => none

/-- Days since the epoch 1970-01-01 of a civil date (the standard
days-from-civil algorithm, floor divisions throughout). -/
def daysFromCivil (y m d : Int) : Int :=
  let yy := if m ≤ 2 then y - 1 else y
  let era := Int.fdiv yy 400
  let yoe := yy - era * 400
  let mp := Int.emod (m + 9) 12
  let doy := Int.fdiv (153 * mp + 2) 5 + d - 1
  let doe := yoe * 365 + Int.fdiv yoe 4 - Int.fdiv yoe 100 + doy
  era * 146097 + doe - 719468

/-- The timestamp of `new Date(s)` after midnight normalization, on
the day scale (the millisecond timestamp is this times 86400000, a
strictly monotone map, so equality and order agree); `none` for an
invalid date. -/
def jsDateDay (s : String) : Option Int :=
  (parseYMD s).map (fun t => daysFromCivil (t.1 : Int) (t.2.1 : Int) (t.2.2 : Int))

/-- The categorization key of a task: `item.date ? new Date(item.date)
: null`, normalized to midnight — `none` when the date field is empty
(falsy) or does not parse (invalid date, whose time is NaN and never
equal to any timestamp). -/
def taskDateValue (s : String) : Option Int :=
  if s = "" then none else jsDateDay s

/-- One rendered row: the task together with its original index in the
stored sequence (the `data-index` attribute). -/
structure Entry where
  item : Task
  index : Nat
deriving Repr, DecidableEq

/-- The three containers in render order. -/
structure Buckets where
  todayTasks : List Entry
  futureTasks : List Entry
  completedTasks : List Entry
deriving Repr, DecidableEq

/-- The entries of the stored sequence with their original indices
(`todoList.forEach((item, index) => ...)`). -/
def entriesOf (todoList : List Task) : List Entry :=
  todoList.enum.map (fun p => { item := p.2, index := p.1 })

/-- The `forEach` classification of `renderTodoList` (src/script.js
lines 63-75): completed tasks regardless of date; else tasks whose
normalized date equals normalized today; else everything (future
and past-dated uncompleted tasks, absent and invalid dates). -/
def partitionEntries (today : Int) : List Entry → Buckets
  | [] => { todayTasks := [], futureTasks := [], completedTasks := [] }
  | e :: rest =>
    let b := partitionEntries today rest
    if e.item.completed then
      { b with completedTasks := e :: b.completedTasks }
    else if taskDateValue e.item.date = some today then
      { b with todayTasks := e :: b.todayTasks }
    else
      { b with futureTasks := e :: b.futureTasks }

/-- The ascending comparator `(a, b) => new Date(a.item.date) -
new Date(b.item.date)` read as "a need not go after b": true when the
difference is not positive, which for NaN (unparseable date on either
side) is also true, matching the tie treatment of `Array.prototype.sort`. -/
def ascLe (a b : Entry) : Bool :=
  match taskDateValue a.item.date, taskDateValue b.item.date with
  | some x, some y => x ≤ y
  | _, _ => true

/-- The descending comparator `(a, b) => new Date(b.item.date) -
new Date(a.item.date)` of the completed bucket, read the same way. -/
def descLe (a b : Entry) : Bool :=
  match taskDateValue a.item.date, taskDateValue b.item.date with
  | some x, some y => y ≤ x
  | _, _ => true

/-- Insert into a sorted list, keeping existing elements first on
ties. -/
def insertLe (le : Entry → Entry → Bool) (e : Entry) : List Entry → List Entry
  | [] => [e]
  | x :: xs => if le x e then x :: insertLe le e xs else e :: x :: xs

/-- Model of `Array.prototype.sort(comparator)`: a sort that orders by
the comparator (any stable sort gives the same result on a consistent
comparator; the claims only constrain order between distinct keys). -/
def sortByLe (le : Entry → Entry → Bool) : List Entry → List Entry
  | [] => []
  | x :: xs => insertLe le x (sortByLe le xs)

/-- The categorize-and-sort core of `renderTodoList` (src/script.js
lines 55-82): classify every stored task with its original index, then
sort today and future ascending and completed descending by date. -/
def renderBuckets (todoList : List Task) (today : Int) : Buckets :=
  let b := partitionEntries today (entriesOf todoList)
  { todayTasks := sortByLe ascLe b.todayTasks,
    futureTasks := sortByLe ascLe b.futureTasks,
    completedTasks := sortByLe descLe b.completedTasks }

/-- The order the ascending comparator imposes, read off on the date
keys: whenever both dates parse, the first is no later than the
second.  (On an unparseable date the JavaScript comparator returns NaN
and the engine keeps an unspecified order, so no constraint holds.) -/
def dateOrderAsc (a b : Entry) : Prop :=
  ∀ x y, taskDateValue a.item.date = some x → taskDateValue b.item.date = some y → x ≤ y

/-- The order of the completed bucket: whenever both dates parse, the
first is no earlier than the second (most recent first). -/
def dateOrderDesc (a b : Entry) : Prop :=
  ∀ x y, taskDateValue a.item.date = some x → taskDateValue b.item.date = some y → y ≤ x

/-- Concrete task used in instance checks. -/
def sampleTask (n d : String) (c : Bool) : Task :=
  { name := n, date := d, priority := "low", completed := c }

/-- The three uncompleted tasks of the sorting example, dated
2024-01-10, 2024-01-05 and 2024-01-20 in stored order. -/
def sampleFutureList : List Task :=
  [sampleTask "a" "2024-01-10" false, sampleTask "b" "2024-01-05" false,
   sampleTask "c" "2024-01-20" false]

/-- The two completed tasks of the completed-bucket example. -/
def sampleCompletedList : List Task :=
  [sampleTask "d" "2024-02-01" true, sampleTask "e" "2024-03-01" true]

/-- A concrete evaluation date, 2024-01-01, on the epoch-day scale. -/
def sampleToday : Int := daysFromCivil 2024 1 1

/-- A concrete stored sequence used in instance checks. -/
def sampleStoredList : List Task :=
  [sampleTask "u" "2024-01-01" false, sampleTask "v" "2024-06-15" true,
   sampleTask "w" "2023-12-31" false]

/-- Concrete valid input fields used in instance checks. -/
def sampleInput : InputState :=
  { itemName := "write spec", itemDeadline := "2024-05-05", itemPriority := "high" }

/-! ## Lemmas about the JSON codec -/

theorem hexVal_hexDigitChar : ∀ n, n < 16 → hexVal (hexDigitChar n) = some n := by decide

theorem mk_data_eq (s : String) : String.mk s.data = s := rfl

theorem length_le_length_flatMap_escapeChar (cs : List Char) :
    cs.length ≤ (cs.flatMap escapeChar).length := by
  induction cs with
  | nil => simp
  | cons c cs ih =>
    have h : 1 ≤ (escapeChar c).length := by
      unfold escapeChar
      split_ifs <;> simp
    simp only [List.flatMap_cons, List.length_append, List.length_cons]
    omega

theorem parseJStringChars_cons (fuel : Nat) (c : Char) (cs2 : List Char) :
    parseJStringChars (fuel + 1) (c :: cs2) =
      if c = '"' then some ([], cs2)
      else if c = '\\' then
        match parseEscape cs2 with
        | some (ch, cs3) =>
          (parseJStringChars fuel cs3).map (fun p => (ch :: p.1, p.2))
        | none => none
      else if c.toNat < 32 then none
      else (parseJStringChars fuel cs2).map (fun p => (c :: p.1, p.2)) := rfl

theorem hexVal_zero : hexVal '0' = some 0 := by decide

/-- The string body printed by `escapeChar` parses back to exactly the
original characters, leaving everything after the closing quote. -/
theorem parseJStringChars_escape (cs : List Char) (f : Nat) (rest : List Char) :
    parseJStringChars (cs.length + f + 1) (cs.flatMap escapeChar ++ ('"' :: rest)) =
      some (cs, rest) := by
  induction cs generalizing f with
  | nil => simp [parseJStringChars]
  | cons c cs ih =>
    rw [List.flatMap_cons, List.append_assoc,
        show (c :: cs).length + f + 1 = (cs.length + f + 1) + 1 from by
          simp only [List.length_cons]
          omega]
    by_cases h1 : c = '"'
    · subst h1
      rw [show escapeChar '"' = ['\\', '"'] from rfl,
          List.cons_append, List.cons_append, parseJStringChars_cons]
      simp [parseEscape, decodeEscape, ih]
    · by_cases h2 : c = '\\'
      · subst h2
        rw [show escapeChar '\\' = ['\\', '\\'] from rfl,
            List.cons_append, List.cons_append, parseJStringChars_cons]
        simp [parseEscape, decodeEscape, ih]
      · by_cases h3 : c.toNat = 8
        · have hc : c = Char.ofNat 8 := by rw [← h3, Char.ofNat_toNat]
          subst hc
          rw [show escapeChar (Char.ofNat 8) = ['\\', 'b'] from rfl,
              List.cons_append, List.cons_append, parseJStringChars_cons]
          simp [parseEscape, decodeEscape, ih]
        · by_cases h4 : c = '\t'
          · subst h4
            rw [show escapeChar '\t' = ['\\', 't'] from rfl,
                List.cons_append, List.cons_append, parseJStringChars_cons]
            simp [parseEscape, decodeEscape, ih]
          · by_cases h5 : c = '\n'
            · subst h5
              rw [show escapeChar '\n' = ['\\', 'n'] from rfl,
                  List.cons_append, List.cons_append, parseJStringChars_cons]
              simp [parseEscape, decodeEscape, ih]
            · by_cases h6 : c.toNat = 12
              · have hc : c = Char.ofNat 12 := by rw [← h6, Char.ofNat_toNat]
                subst hc
                rw [show escapeChar (Char.ofNat 12) = ['\\', 'f'] from rfl,
                    List.cons_append, List.cons_append, parseJStringChars_cons]
                simp [parseEscape, decodeEscape, ih]
              · by_cases h7 : c = '\r'
                · subst h7
                  rw [show escapeChar '\r' = ['\\', 'r'] from rfl,
                      List.cons_append, List.cons_append, parseJStringChars_cons]
                  simp [parseEscape, decodeEscape, ih]
                · by_cases h8 : c.toNat < 32
                  · rw [show escapeChar c =
                          ['\\', 'u', '0', '0', hexDigitChar (c.toNat / 16),
                           hexDigitChar (c.toNat % 16)] from by
                          unfold escapeChar
                          rw [if_neg h1, if_neg h2, if_neg h3, if_neg h4, if_neg h5,
                              if_neg h6, if_neg h7, if_pos h8]]
                    have hdiv : c.toNat / 16 < 16 := by omega
                    have hmod : c.toNat % 16 < 16 := by omega
                    have hval : 16 * (c.toNat / 16) + c.toNat % 16 = c.toNat := by omega
                    rw [List.cons_append, parseJStringChars_cons]
                    simp [parseEscape, hexVal_zero, hexVal_hexDigitChar _ hdiv,
                          hexVal_hexDigitChar _ hmod, hval, Char.ofNat_toNat, ih]
                  · rw [show escapeChar c = [c] from by
                          unfold escapeChar
                          rw [if_neg h1, if_neg h2, if_neg h3, if_neg h4, if_neg h5,
                              if_neg h6, if_neg h7, if_neg h8]]
                    rw [List.cons_append, parseJStringChars_cons]
                    simp [h1, h2, h8, ih]

theorem parseJStringChars_escape_ge (cs : List Char) (rest : List Char) (fuel : Nat)
    (h : cs.length + 1 ≤ fuel) :
    parseJStringChars fuel (cs.flatMap escapeChar ++ ('"' :: rest)) = some (cs, rest) := by
  obtain ⟨g, rfl⟩ := Nat.exists_eq_add_of_le h
  rw [show cs.length + 1 + g = cs.length + g + 1 from by omega]
  exact parseJStringChars_escape cs g rest

/-- One evaluation step of `parseJValue` on an input that does not
start with whitespace. -/
theorem parseJValue_cons (fuel : Nat) (c : Char) (cs : List Char) (hc : isJsonWs c = false) :
    parseJValue (fuel + 1) (c :: cs) =
      (if c = '"' then
        (parseJStringChars (cs.length + 1) cs).map
          (fun p => (Json.str (String.mk p.1), p.2))
      else if c = 't' then
        match cs with
        | 'r' :: 'u' :: 'e' :: r => some (Json.bool true, r)
        | _ => none
      else if c = 'f' then
        match cs with
        | 'a' :: 'l' :: 's' :: 'e' :: r => some (Json.bool false, r)
        | _ => none
      else if c = 'n' then
        match cs with
        | 'u' :: 'l' :: 'l' :: r => some (Json.null, r)
        | _ => none
      else if c = '[' then
        match skipWs cs with
        | c1 :: r =>
          if c1 = ']' then some (Json.arr [], r)
          else (parseArrayItems fuel (c1 :: r)).map (fun p => (Json.arr p.1, p.2))
        | [] => none
      else if c = braceL then
        match skipWs cs with
        | c2 :: r =>
          if c2 = braceR then some (Json.obj [], r)
          else (parseMembers fuel (c2 :: r)).map (fun p => (Json.obj p.1, p.2))
        | [] => none
      else if c = '-' ∨ c.isDigit then
        (parseNumberChars (c :: cs)).map (fun p => (Json.num (String.mk p.1), p.2))
      else none) := by
  simp only [parseJValue]
  rw [show skipWs (c :: cs) = c :: cs from by simp [skipWs, hc]]

/-- One evaluation step of `parseMembers` on an input that does not
start with whitespace. -/
theorem parseMembers_cons (fuel : Nat) (c : Char) (cs : List Char) (hc : isJsonWs c = false) :
    parseMembers (fuel + 1) (c :: cs) =
      (if c = '"' then
        match parseJStringChars (cs.length + 1) cs with
        | none => none
        | some (k, r2) =>
          match skipWs r2 with
          | ':' :: r3 =>
            match parseJValue fuel r3 with
            | none => none
            | some (v, r4) =>
              match skipWs r4 with
              | c2 :: r5 =>
                if c2 = ',' then
                  (parseMembers fuel r5).map
                    (fun p => ((String.mk k, v) :: p.1, p.2))
                else if c2 = braceR then some ([(String.mk k, v)], r5)
                else none
              | [] => none
          | _ => none
      else none) := by
  simp only [parseMembers]
  rw [show skipWs (c :: cs) = c :: cs from by simp [skipWs, hc]]

/-- A quoted string parses as a JSON string value. -/
theorem parseJValue_str (fuel : Nat) (s : String) (rest : List Char) :
    parseJValue (fuel + 1) (quoteJString s ++ rest) = some (Json.str s, rest) := by
  rw [show quoteJString s ++ rest = '"' :: (s.data.flatMap escapeChar ++ ('"' :: rest)) from by
        simp [quoteJString]]
  rw [parseJValue_cons _ _ _ (by decide), if_pos rfl]
  rw [parseJStringChars_escape_ge _ _ _ (by
        have := length_le_length_flatMap_escapeChar s.data
        simp only [List.length_append, List.length_cons]
        omega)]
  simp [mk_data_eq]

/-- A boolean literal parses as a JSON boolean value. -/
theorem parseJValue_boolLit (fuel : Nat) (b : Bool) (rest : List Char) :
    parseJValue (fuel + 1) (jsonToChars (Json.bool b) ++ rest) = some (Json.bool b, rest) := by
  cases b
  · rw [show jsonToChars (Json.bool false) ++ rest =
          'f' :: 'a' :: 'l' :: 's' :: 'e' :: rest from by simp [jsonToChars]]
    rw [parseJValue_cons _ _ _ (by decide)]
    simp
  · rw [show jsonToChars (Json.bool true) ++ rest =
          't' :: 'r' :: 'u' :: 'e' :: rest from by simp [jsonToChars]]
    rw [parseJValue_cons _ _ _ (by decide)]
    simp

theorem isJsonWs_braceR : isJsonWs braceR = false := by decide

theorem skipWs_cons_of (c : Char) (h : isJsonWs c = false) (X : List Char) :
    skipWs (c :: X) = c :: X := by simp [skipWs, h]

theorem quoteJString_append_eq (k : String) (X : List Char) :
    quoteJString k ++ X = '"' :: (k.data.flatMap escapeChar ++ ('"' :: X)) := by
  simp [quoteJString]

theorem parseMembers_fin (f : Nat) (k : String) (v : Json) (vcs rest : List Char)
    (hv : ∀ r, parseJValue (f + 1) (vcs ++ r) = some (v, r)) :
    parseMembers (f + 1 + 1) (quoteJString k ++ (':' :: (vcs ++ (braceR :: rest)))) =
      some ([(k, v)], rest) := by
  rw [quoteJString_append_eq]
  rw [parseMembers_cons _ _ _ (by decide), if_pos rfl]
  rw [parseJStringChars_escape_ge _ _ _ (by
        have := length_le_length_flatMap_escapeChar k.data
        simp only [List.length_append, List.length_cons]
        omega)]
  simp only []
  rw [skipWs_cons_of ':' (by decide)]
  simp only []
  rw [hv (braceR :: rest)]
  simp only []
  rw [skipWs_cons_of braceR isJsonWs_braceR]
  simp only []
  rw [if_neg (by decide : ¬braceR = ',')]
  simp [mk_data_eq]

theorem parseMembers_step (f : Nat) (k : String) (v : Json) (vcs tail : List Char)
    (ms : List (String × Json)) (rest : List Char)
    (hv : ∀ r, parseJValue (f + 1) (vcs ++ r) = some (v, r))
    (hcont : parseMembers (f + 1) tail = some (ms, rest)) :
    parseMembers (f + 1 + 1) (quoteJString k ++ (':' :: (vcs ++ (',' :: tail)))) =
      some ((k, v) :: ms, rest) := by
  rw [quoteJString_append_eq]
  rw [parseMembers_cons _ _ _ (by decide), if_pos rfl]
  rw [parseJStringChars_escape_ge _ _ _ (by
        have := length_le_length_flatMap_escapeChar k.data
        simp only [List.length_append, List.length_cons]
        omega)]
  simp only []
  rw [skipWs_cons_of ':' (by decide)]
  simp only []
  rw [hv (',' :: tail)]
  simp only []
  rw [skipWs_cons_of ',' (by decide)]
  simp only []
  simp [hcont, mk_data_eq]

theorem parseJValue_encodeTask_core (f : Nat) (n d p : String) (b : Bool) (rest : List Char) :
    parseJValue (f + 5 + 1) (jsonToChars (encodeTask ⟨n, d, p, b⟩) ++ rest) =
      some (encodeTask ⟨n, d, p, b⟩, rest) := by
  have e1 : jsonToChars (encodeTask ⟨n, d, p, b⟩) ++ rest =
      braceL :: (quoteJString "name" ++ (':' :: (quoteJString n ++ (',' :: (quoteJString "date" ++ (':' :: (quoteJString d ++ (',' :: (quoteJString "priority" ++ (':' :: (quoteJString p ++ (',' :: (quoteJString "completed" ++ (':' :: (jsonToChars (Json.bool b) ++ (braceR :: rest)))))))))))))))) := by
    cases b <;>
      simp [jsonToChars, encodeTask, membersToChars, List.append_assoc]
  rw [e1]
  rw [parseJValue_cons _ _ _ (by decide)]
  rw [if_neg (by decide : ¬braceL = '"'), if_neg (by decide : ¬braceL = 't'),
      if_neg (by decide : ¬braceL = 'f'), if_neg (by decide : ¬braceL = 'n'),
      if_neg (by decide : ¬braceL = '['), if_pos rfl]
  rw [quoteJString_append_eq "name"]
  rw [skipWs_cons_of '"' (by decide)]
  simp only []
  rw [if_neg (by decide : ¬('"' : Char) = braceR)]
  rw [← quoteJString_append_eq "name"]
  rw [show (f + 5 : Nat) = (f + 3) + 1 + 1 from by omega]
  rw [parseMembers_step (f + 3) "name" (Json.str n) (quoteJString n) _ _ rest
        (fun r => parseJValue_str (f + 3) n r)
        (by
          rw [show (f + 3 + 1 : Nat) = (f + 2) + 1 + 1 from by omega]
          exact parseMembers_step (f + 2) "date" (Json.str d) (quoteJString d) _ _ rest
            (fun r => parseJValue_str (f + 2) d r)
            (by
              rw [show (f + 2 + 1 : Nat) = (f + 1) + 1 + 1 from by omega]
              exact parseMembers_step (f + 1) "priority" (Json.str p)
                (quoteJString p) _ _ rest
                (fun r => parseJValue_str (f + 1) p r)
                (parseMembers_fin f "completed" (Json.bool b)
                  (jsonToChars (Json.bool b)) rest
                  (fun r => parseJValue_boolLit f b r))))]
  simp [encodeTask]

theorem parseJValue_encodeTask (f : Nat) (t : Task) (rest : List Char) :
    parseJValue (f + 5 + 1) (jsonToChars (encodeTask t) ++ rest) =
      some (encodeTask t, rest) := by
  obtain ⟨n, d, p, b⟩ := t
  exact parseJValue_encodeTask_core f n d p b rest

theorem parseArrayItems_succ (fuel : Nat) (cs : List Char) :
    parseArrayItems (fuel + 1) cs =
      (match parseJValue fuel cs with
      | none => none
      | some (v, r) =>
        match skipWs r with
        | ',' :: r2 => (parseArrayItems fuel r2).map (fun p => (v :: p.1, p.2))
        | ']' :: r2 => some ([v], r2)
        | _ => none) := rfl

theorem parseArrayItems_fin (f : Nat) (v : Json) (vcs rest : List Char)
    (hv : ∀ r, parseJValue (f + 1) (vcs ++ r) = some (v, r)) :
    parseArrayItems (f + 1 + 1) (vcs ++ (']' :: rest)) = some ([v], rest) := by
  rw [parseArrayItems_succ]
  rw [hv (']' :: rest)]
  simp only []
  rw [skipWs_cons_of ']' (by decide)]
  rfl

theorem parseArrayItems_step (f : Nat) (v : Json) (vcs tail : List Char)
    (vs : List Json) (rest : List Char)
    (hv : ∀ r, parseJValue (f + 1) (vcs ++ r) = some (v, r))
    (hcont : parseArrayItems (f + 1) tail = some (vs, rest)) :
    parseArrayItems (f + 1 + 1) (vcs ++ (',' :: tail)) = some (v :: vs, rest) := by
  rw [parseArrayItems_succ]
  rw [hv (',' :: tail)]
  simp only []
  rw [skipWs_cons_of ',' (by decide)]
  simp only []
  rw [hcont]
  rfl

/-- A nonempty comma-separated list of encoded tasks followed by the
closing bracket parses back to the encoded tasks. -/
theorem parseArrayItems_tasks (l : List Task) (f : Nat) (rest : List Char) (hl : l ≠ []) :
    parseArrayItems (l.length + f + 6) (arrayToChars (l.map encodeTask) ++ (']' :: rest)) =
      some (l.map encodeTask, rest) := by
  induction l generalizing f with
  | nil => exact absurd rfl hl
  | cons t ts ih =>
    cases ts with
    | nil =>
      rw [show ([t] : List Task).length + f + 6 = (f + 5) + 1 + 1 from by
            simp only [List.length_cons, List.length_nil]
            omega,
          show arrayToChars ([t].map encodeTask) = jsonToChars (encodeTask t) from by
            simp [arrayToChars]]
      exact parseArrayItems_fin (f + 5) (encodeTask t) _ rest
        (fun r => parseJValue_encodeTask f t r)
    | cons t2 ts2 =>
      rw [show arrayToChars ((t :: t2 :: ts2).map encodeTask) ++ (']' :: rest) =
            jsonToChars (encodeTask t) ++
              (',' :: (arrayToChars ((t2 :: ts2).map encodeTask) ++ (']' :: rest))) from by
            simp [arrayToChars, List.append_assoc]]
      rw [show (t :: t2 :: ts2).length + f + 6 =
            ((t2 :: ts2).length + f + 5) + 1 + 1 from by
            simp only [List.length_cons]
            omega]
      exact parseArrayItems_step ((t2 :: ts2).length + f + 5) (encodeTask t) _ _ _ rest
        (fun r => parseJValue_encodeTask ((t2 :: ts2).length + f) t r)
        (by
          rw [show ((t2 :: ts2).length + f + 5 + 1 : Nat) =
                (t2 :: ts2).length + f + 6 from by omega]
          exact ih f (by simp))

theorem length_encodeTask_ge (t : Task) : 6 ≤ (jsonToChars (encodeTask t)).length := by
  obtain ⟨n, d, p, b⟩ := t
  cases b <;>
    · simp [jsonToChars, encodeTask, membersToChars, quoteJString]
      omega

theorem length_arrayToChars_tasks (l : List Task) (hl : l ≠ []) :
    l.length + 4 ≤ (arrayToChars (l.map encodeTask)).length := by
  induction l with
  | nil => exact absurd rfl hl
  | cons t ts ih =>
    cases ts with
    | nil =>
      have h1 := length_encodeTask_ge t
      simp only [List.map_cons, List.map_nil, arrayToChars, List.length_cons,
                 List.length_nil]
      omega
    | cons t2 ts2 =>
      have h1 := length_encodeTask_ge t
      have h2 := ih (by simp)
      simp only [List.map_cons, arrayToChars, List.length_append, List.length_cons] at h2 ⊢
      omega

theorem jsonToChars_encodeTask_head (t : Task) :
    ∃ Y, jsonToChars (encodeTask t) = braceL :: Y := by
  refine ⟨membersToChars [("name", Json.str t.name), ("date", Json.str t.date),
    ("priority", Json.str t.priority), ("completed", Json.bool t.completed)] ++ [braceR], ?_⟩
  simp [jsonToChars, encodeTask]

/-- Round trip at the character level: the stored string written by
`saveTodoList` parses back to the encoded task array. -/
theorem parse_stringify_encodeTasks (l : List Task) :
    Json.parse (Json.stringify (encodeTasks l)) = some (encodeTasks l) := by
  cases l with
  | nil => rfl
  | cons t ts =>
    have hA : jsonToChars (encodeTasks (t :: ts)) =
        '[' :: (arrayToChars ((t :: ts).map encodeTask) ++ [']']) := by
      simp [jsonToChars, encodeTasks]
    obtain ⟨Y, hY⟩ := jsonToChars_encodeTask_head t
    have hhead : arrayToChars ((t :: ts).map encodeTask) ++ ([']'] : List Char) =
        braceL :: (Y ++ (match ts with
          | [] => ([']'] : List Char)
          | t2 :: ts2 => ',' :: (arrayToChars ((t2 :: ts2).map encodeTask) ++ [']']))) := by
      cases ts with
      | nil => simp [arrayToChars, hY]
      | cons t2 ts2 => simp [arrayToChars, hY, List.append_assoc]
    have hlen := length_arrayToChars_tasks (t :: ts) (by simp)
    unfold Json.parse Json.stringify
    rw [String.length_mk, show (String.mk (jsonToChars (encodeTasks (t :: ts)))).data =
          jsonToChars (encodeTasks (t :: ts)) from rfl]
    rw [hA]
    rw [show ('[' :: (arrayToChars ((t :: ts).map encodeTask) ++ [']'])).length + 1 =
          ((arrayToChars ((t :: ts).map encodeTask)).length + 2) + 1 from by
          simp only [List.length_cons, List.length_append, List.length_nil]]
    rw [parseJValue_cons _ _ _ (by decide)]
    rw [if_neg (by decide : ¬('[' : Char) = '"'), if_neg (by decide : ¬('[' : Char) = 't'),
        if_neg (by decide : ¬('[' : Char) = 'f'), if_neg (by decide : ¬('[' : Char) = 'n'),
        if_pos rfl]
    rw [hhead]
    rw [skipWs_cons_of braceL (by decide)]
    simp only []
    rw [if_neg (by decide : ¬braceL = ']')]
    rw [← hhead]
    obtain ⟨g, hg⟩ : ∃ g, (arrayToChars ((t :: ts).map encodeTask)).length + 2 =
        (t :: ts).length + g + 6 := by
      refine ⟨(arrayToChars ((t :: ts).map encodeTask)).length - 4 - (t :: ts).length, ?_⟩
      omega
    rw [hg]
    rw [show arrayToChars ((t :: ts).map encodeTask) ++ ([']'] : List Char) =
          arrayToChars ((t :: ts).map encodeTask) ++ (']' :: ([] : List Char)) from rfl]
    rw [parseArrayItems_tasks (t :: ts) g [] (by simp)]
    simp [skipWs, encodeTasks]

theorem decodeTask_encodeTask (t : Task) : decodeTask (encodeTask t) = some t := by
  obtain ⟨n, d, p, b⟩ := t
  simp [decodeTask, encodeTask]

theorem decodeTaskList_map (l : List Task) :
    decodeTaskList (l.map encodeTask) = some l := by
  induction l with
  | nil => rfl
  | cons t ts ih => simp [decodeTaskList, decodeTask_encodeTask t, ih]

theorem decodeTasks_encodeTasks (l : List Task) :
    decodeTasks (encodeTasks l) = some l := by
  simp [decodeTasks, encodeTasks, decodeTaskList_map]

theorem saveTodoList_ne_empty (l : List Task) : saveTodoList l ≠ "" := by
  unfold saveTodoList Json.stringify
  intro h
  have h2 : jsonToChars (encodeTasks l) = ("" : String).data := by
    rw [← h]
  rw [show ("" : String).data = [] from rfl] at h2
  cases l <;> simp [jsonToChars, encodeTasks, arrayToChars] at h2

theorem loadTodoList_saveTodoList (l : List Task) :
    loadTodoList (some (saveTodoList l)) = Except.ok (encodeTasks l) := by
  simp only [loadTodoList]
  rw [if_neg (saveTodoList_ne_empty l)]
  rw [show Json.parse (saveTodoList l) = some (encodeTasks l) from
        parse_stringify_encodeTasks l]

/-! ## Lemmas about the store operations -/

theorem addItem_invalid (inp : InputState) (l : List Task)
    (h : jsTrim inp.itemName = "" ∨ inp.itemDeadline = "" ∨ inp.itemPriority = "") :
    addItem inp l = { todoList := l, inputs := inp, alerted := true } := by
  unfold addItem
  rw [if_pos h]

theorem addItem_valid (inp : InputState) (l : List Task)
    (hn : jsTrim inp.itemName ≠ "") (hd : inp.itemDeadline ≠ "") (hp : inp.itemPriority ≠ "") :
    addItem inp l =
      { todoList := l ++ [{ name := jsTrim inp.itemName, date := inp.itemDeadline,
                            priority := inp.itemPriority, completed := false }],
        inputs := { itemName := "", itemDeadline := "", itemPriority := "" },
        alerted := false } := by
  unfold addItem
  rw [if_neg (by simp [hn, hd, hp])]

theorem deleteItem_in_range (i : Int) (l : List Task)
    (h : 0 ≤ i ∧ i < (l.length : Int)) :
    deleteItem i l = l.eraseIdx i.toNat := by
  unfold deleteItem
  rw [if_pos h]

theorem deleteItem_out_of_range (i : Int) (l : List Task)
    (h : ¬(0 ≤ i ∧ i < (l.length : Int))) :
    deleteItem i l = l := by
  unfold deleteItem
  rw [if_neg h]

theorem toggleComplete_in_range (i : Int) (l : List Task)
    (h : 0 ≤ i ∧ i < (l.length : Int)) :
    toggleComplete i l =
      l.modify (fun t => { t with completed := !t.completed }) i.toNat := by
  unfold toggleComplete
  rw [if_pos h]

theorem toggleComplete_out_of_range (i : Int) (l : List Task)
    (h : ¬(0 ≤ i ∧ i < (l.length : Int))) :
    toggleComplete i l = l := by
  unfold toggleComplete
  rw [if_neg h]

theorem toggleComplete_toggleComplete (i : Int) (l : List Task) :
    toggleComplete i (toggleComplete i l) = l := by
  by_cases h : 0 ≤ i ∧ i < (l.length : Int)
  · rw [toggleComplete_in_range i l h]
    rw [toggleComplete_in_range i _ (by
      rw [List.length_modify]
      exact h)]
    apply List.ext_getElem?
    intro n
    by_cases hn : n = i.toNat
    · subst hn
      rw [show (l.modify (fun t => { t with completed := !t.completed })
            i.toNat).modify (fun t => { t with completed := !t.completed }) i.toNat
            = _ from rfl]
      rw [List.getElem?_modify_eq, List.getElem?_modify_eq]
      cases hx : l[i.toNat]? with
      | none => rfl
      | some t =>
        obtain ⟨n1, d1, p1, b1⟩ := t
        simp
    · rw [List.getElem?_modify_ne _ _ (fun he => hn he.symm),
          List.getElem?_modify_ne _ _ (fun he => hn he.symm)]
  · rw [toggleComplete_out_of_range i l h, toggleComplete_out_of_range i l h]

/-! ## Lemmas about categorization and sorting -/

theorem item_mem_of_mem_entriesOf (l : List Task) (e : Entry)
    (h : e ∈ entriesOf l) : e.item ∈ l := by
  unfold entriesOf at h
  obtain ⟨a, ha, hae⟩ := List.mem_map.1 h
  have h2 : l[a.1]? = some a.2 := List.mem_enum_iff_getElem?.1 ha
  have hm : a.2 ∈ l := List.getElem?_mem h2
  rw [← hae]
  exact hm

theorem mem_partitionEntries (today : Int) (es : List Entry) (e : Entry) :
    (e ∈ (partitionEntries today es).todayTasks ↔
        e ∈ es ∧ e.item.completed = false ∧ taskDateValue e.item.date = some today) ∧
    (e ∈ (partitionEntries today es).futureTasks ↔
        e ∈ es ∧ e.item.completed = false ∧ ¬taskDateValue e.item.date = some today) ∧
    (e ∈ (partitionEntries today es).completedTasks ↔
        e ∈ es ∧ e.item.completed = true) := by
  induction es with
  | nil => simp [partitionEntries]
  | cons x xs ih =>
    simp only [partitionEntries]
    by_cases hc : x.item.completed
    · rw [if_pos hc]
      simp only [List.mem_cons, ih.1, ih.2.1, ih.2.2]
      refine ⟨?_, ?_, ?_⟩ <;> constructor
      · rintro ⟨h1, h2, h3⟩
        exact ⟨Or.inr h1, h2, h3⟩
      · rintro ⟨h1 | h1, h2, h3⟩
        · rw [h1] at h2
          rw [hc] at h2
          exact absurd h2 (by simp)
        · exact ⟨h1, h2, h3⟩
      · rintro ⟨h1, h2, h3⟩
        exact ⟨Or.inr h1, h2, h3⟩
      · rintro ⟨h1 | h1, h2, h3⟩
        · rw [h1] at h2
          rw [hc] at h2
          exact absurd h2 (by simp)
        · exact ⟨h1, h2, h3⟩
      · rintro (rfl | ⟨h1, h2⟩)
        · exact ⟨Or.inl rfl, hc⟩
        · exact ⟨Or.inr h1, h2⟩
      · rintro ⟨rfl | h1, h2⟩
        · exact Or.inl rfl
        · exact Or.inr ⟨h1, h2⟩
    · rw [if_neg hc]
      have hcf : x.item.completed = false := by simpa using hc
      by_cases hd : taskDateValue x.item.date = some today
      · rw [if_pos hd]
        simp only [List.mem_cons, ih.1, ih.2.1, ih.2.2]
        refine ⟨?_, ?_, ?_⟩ <;> constructor
        · rintro (rfl | ⟨h1, h2, h3⟩)
          · exact ⟨Or.inl rfl, hcf, hd⟩
          · exact ⟨Or.inr h1, h2, h3⟩
        · rintro ⟨rfl | h1, h2, h3⟩
          · exact Or.inl rfl
          · exact Or.inr ⟨h1, h2, h3⟩
        · rintro ⟨h1, h2, h3⟩
          exact ⟨Or.inr h1, h2, h3⟩
        · rintro ⟨rfl | h1, h2, h3⟩
          · exact absurd hd h3
          · exact ⟨h1, h2, h3⟩
        · rintro ⟨h1, h2⟩
          exact ⟨Or.inr h1, h2⟩
        · rintro ⟨rfl | h1, h2⟩
          · rw [hcf] at h2
            exact absurd h2 (by simp)
          · exact ⟨h1, h2⟩
      · rw [if_neg hd]
        simp only [List.mem_cons, ih.1, ih.2.1, ih.2.2]
        refine ⟨?_, ?_, ?_⟩ <;> constructor
        · rintro ⟨h1, h2, h3⟩
          exact ⟨Or.inr h1, h2, h3⟩
        · rintro ⟨rfl | h1, h2, h3⟩
          · exact absurd h3 (by simpa using hd)
          · exact ⟨h1, h2, h3⟩
        · rintro (rfl | ⟨h1, h2, h3⟩)
          · exact ⟨Or.inl rfl, hcf, hd⟩
          · exact ⟨Or.inr h1, h2, h3⟩
        · rintro ⟨rfl | h1, h2, h3⟩
          · exact Or.inl rfl
          · exact Or.inr ⟨h1, h2, h3⟩
        · rintro ⟨h1, h2⟩
          exact ⟨Or.inr h1, h2⟩
        · rintro ⟨rfl | h1, h2⟩
          · rw [hcf] at h2
            exact absurd h2 (by simp)
          · exact ⟨h1, h2⟩

theorem mem_insertLe (le : Entry → Entry → Bool) (e x : Entry) (l : List Entry) :
    x ∈ insertLe le e l ↔ x = e ∨ x ∈ l := by
  induction l with
  | nil => simp [insertLe]
  | cons y ys ih =>
    unfold insertLe
    by_cases h : le y e = true
    · rw [if_pos h]
      simp only [List.mem_cons, ih]
      tauto
    · rw [if_neg h]
      simp only [List.mem_cons]

theorem mem_sortByLe (le : Entry → Entry → Bool) (x : Entry) (l : List Entry) :
    x ∈ sortByLe le l ↔ x ∈ l := by
  induction l with
  | nil => simp [sortByLe]
  | cons y ys ih =>
    simp only [sortByLe, mem_insertLe, List.mem_cons, ih]

theorem pairwise_insertLe (le : Entry → Entry → Bool) (R : Entry → Entry → Prop)
    (h1 : ∀ a b, le a b = true → R a b)
    (h2 : ∀ a b, le a b = false → R b a)
    (h3 : ∀ a b c, le b a = false → R b c → R a c)
    (e : Entry) (l : List Entry) (hl : l.Pairwise R) :
    (insertLe le e l).Pairwise R := by
  induction l with
  | nil => simp [insertLe]
  | cons x xs ih =>
    rw [List.pairwise_cons] at hl
    unfold insertLe
    by_cases h : le x e = true
    · rw [if_pos h, List.pairwise_cons]
      refine ⟨?_, ih hl.2⟩
      intro y hy
      rcases (mem_insertLe le e y xs).1 hy with rfl | hmem
      · exact h1 _ _ h
      · exact hl.1 y hmem
    · have hbf : le x e = false := by simpa using h
      rw [if_neg h, List.pairwise_cons]
      refine ⟨?_, List.pairwise_cons.2 ⟨hl.1, hl.2⟩⟩
      intro y hy
      rcases List.mem_cons.1 hy with rfl | hmem
      · exact h2 _ _ hbf
      · exact h3 e x y hbf (hl.1 y hmem)

theorem pairwise_sortByLe (le : Entry → Entry → Bool) (R : Entry → Entry → Prop)
    (h1 : ∀ a b, le a b = true → R a b)
    (h2 : ∀ a b, le a b = false → R b a)
    (h3 : ∀ a b c, le b a = false → R b c → R a c)
    (l : List Entry) : (sortByLe le l).Pairwise R := by
  induction l with
  | nil => simp [sortByLe]
  | cons x xs ih => exact pairwise_insertLe le R h1 h2 h3 x _ ih

theorem ascLe_true_imp (a b : Entry) (h : ascLe a b = true) : dateOrderAsc a b := by
  intro x y hx hy
  unfold ascLe at h
  rw [hx, hy] at h
  simpa using h

theorem ascLe_false_imp (a b : Entry) (h : ascLe a b = false) : dateOrderAsc b a := by
  intro x y hx hy
  unfold ascLe at h
  rw [hy, hx] at h
  simp at h
  omega

theorem ascLe_false_trans (a b c : Entry) (h : ascLe b a = false)
    (hbc : dateOrderAsc b c) : dateOrderAsc a c := by
  intro x y hx hy
  unfold ascLe at h
  cases hb : taskDateValue b.item.date with
  | none => rw [hb] at h; simp at h
  | some kb =>
    rw [hb, hx] at h
    simp at h
    have := hbc kb y hb hy
    omega

theorem descLe_true_imp (a b : Entry) (h : descLe a b = true) : dateOrderDesc a b := by
  intro x y hx hy
  unfold descLe at h
  rw [hx, hy] at h
  simpa using h

theorem descLe_false_imp (a b : Entry) (h : descLe a b = false) : dateOrderDesc b a := by
  intro x y hx hy
  unfold descLe at h
  rw [hy, hx] at h
  simp at h
  omega

theorem descLe_false_trans (a b c : Entry) (h : descLe b a = false)
    (hbc : dateOrderDesc b c) : dateOrderDesc a c := by
  intro x y hx hy
  unfold descLe at h
  cases hb : taskDateValue b.item.date with
  | none => rw [hb] at h; simp at h
  | some kb =>
    rw [hb, hx] at h
    simp at h
    have := hbc kb y hb hy
    omega

theorem pairwise_asc_sortByLe (l : List Entry) :
    (sortByLe ascLe l).Pairwise dateOrderAsc :=
  pairwise_sortByLe ascLe dateOrderAsc ascLe_true_imp ascLe_false_imp
    (fun a b c h hbc => ascLe_false_trans a b c h hbc) l

theorem pairwise_desc_sortByLe (l : List Entry) :
    (sortByLe descLe l).Pairwise dateOrderDesc :=
  pairwise_sortByLe descLe dateOrderDesc descLe_true_imp descLe_false_imp
    (fun a b c h hbc => descLe_false_trans a b c h hbc) l

theorem renderBuckets_eq (l : List Task) (today : Int) :
    renderBuckets l today =
      { todayTasks := sortByLe ascLe (partitionEntries today (entriesOf l)).todayTasks,
        futureTasks := sortByLe ascLe (partitionEntries today (entriesOf l)).futureTasks,
        completedTasks :=
          sortByLe descLe (partitionEntries today (entriesOf l)).completedTasks } := rfl

/-! ## The claims -/

/-- C1 (corrected), counterexample to the claim as stated: on the
malformed stored string "oops" the program does not return an empty
sequence; `JSON.parse` fails and, with no try/catch in `loadTodoList`,
the error propagates (`Except.error`), which is not `Except.ok` of the
empty array. -/
theorem claim_C1_counterexample :
    loadTodoList (some "oops") = Except.error JsError.parseError ∧
    loadTodoList (some "oops") ≠ Except.ok (Json.arr []) :=
  ⟨rfl, fun h => nomatch h⟩

/-- C1 (amended): load returns the stored sequence when the stored
string is the output of save; it returns the empty sequence when the
stored value is absent or the empty string; and on any other
unparseable stored string it raises the parse error instead of
returning an empty list. -/
theorem claim_C1 :
    loadTodoList none = Except.ok (Json.arr []) ∧
    loadTodoList (some "") = Except.ok (Json.arr []) ∧
    (∀ l : List Task,
        loadTodoList (some (saveTodoList l)) = Except.ok (encodeTasks l) ∧
        decodeTasks (encodeTasks l) = some l) ∧
    (∀ s : String, s ≠ "" → Json.parse s = none →
        loadTodoList (some s) = Except.error JsError.parseError) := by
  refine ⟨rfl, rfl, fun l => ⟨loadTodoList_saveTodoList l, decodeTasks_encodeTasks l⟩,
    fun s h1 h2 => ?_⟩
  simp only [loadTodoList]
  rw [if_neg h1, h2]

/-- Witness for C1 at concrete inputs: the singleton store round-trips,
and the malformed string "oops" raises the parse error. -/
theorem claim_C1_witness :
    loadTodoList (some (saveTodoList [sampleTask "a" "2024-01-10" false])) =
      Except.ok (encodeTasks [sampleTask "a" "2024-01-10" false]) ∧
    loadTodoList (some "oops") = Except.error JsError.parseError :=
  ⟨(claim_C1.2.2.1 [sampleTask "a" "2024-01-10" false]).1,
   claim_C1.2.2.2 "oops" (by decide) rfl⟩

/-- C2: add (with valid inputs) increases the persisted sequence
length by exactly 1 and leaves every already-present record unchanged;
delete at a valid index decreases the length by exactly 1 and every
other record keeps its fields (shifted down past the hole); toggle at
a valid index keeps the length and every other record unchanged, and
touches only the completed flag of the targeted record (name, date and
priority are untouched). -/
theorem claim_C2 :
    (∀ (inp : InputState) (l : List Task),
        jsTrim inp.itemName ≠ "" → inp.itemDeadline ≠ "" → inp.itemPriority ≠ "" →
        (addItem inp l).todoList.length = l.length + 1 ∧
        ∀ j : Nat, j < l.length → (addItem inp l).todoList[j]? = l[j]?) ∧
    (∀ (l : List Task) (i : Int), 0 ≤ i → i < (l.length : Int) →
        (deleteItem i l).length = l.length - 1 ∧
        (∀ j : Nat, j < i.toNat → (deleteItem i l)[j]? = l[j]?) ∧
        (∀ j : Nat, i.toNat ≤ j → (deleteItem i l)[j]? = l[j + 1]?)) ∧
    (∀ (l : List Task) (i : Int), 0 ≤ i → i < (l.length : Int) →
        (toggleComplete i l).length = l.length ∧
        (∀ j : Nat, j ≠ i.toNat → (toggleComplete i l)[j]? = l[j]?) ∧
        ((toggleComplete i l)[i.toNat]?).map Task.name = (l[i.toNat]?).map Task.name ∧
        ((toggleComplete i l)[i.toNat]?).map Task.date = (l[i.toNat]?).map Task.date ∧
        ((toggleComplete i l)[i.toNat]?).map Task.priority =
          (l[i.toNat]?).map Task.priority) := by
  refine ⟨fun inp l hn hd hp => ?_, fun l i h1 h2 => ?_, fun l i h1 h2 => ?_⟩
  · rw [addItem_valid inp l hn hd hp]
    constructor
    · simp
    · intro j hj
      exact List.getElem?_append_left hj
  · have hi : i.toNat < l.length := by omega
    rw [deleteItem_in_range i l ⟨h1, h2⟩]
    exact ⟨List.length_eraseIdx_of_lt hi,
      fun j hj => List.getElem?_eraseIdx_of_lt l i.toNat j hj,
      fun j hj => List.getElem?_eraseIdx_of_ge l i.toNat j hj⟩
  · have hi : i.toNat < l.length := by omega
    rw [toggleComplete_in_range i l ⟨h1, h2⟩]
    refine ⟨List.length_modify _ _ _,
      fun j hj => List.getElem?_modify_ne _ _ (fun he => hj he.symm), ?_, ?_, ?_⟩ <;>
      · rw [List.getElem?_modify_eq]
        cases l[i.toNat]? with
        | none => rfl
        | some t => rfl

/-- Witness for C2 at a concrete three-record store: add appends (length
4, first record untouched), delete at index 1 gives length 2 with the
neighbours preserved, toggle at index 1 keeps length 3 and record 0. -/
theorem claim_C2_witness :
    (addItem sampleInput sampleStoredList).todoList.length =
        sampleStoredList.length + 1 ∧
    (addItem sampleInput sampleStoredList).todoList[0]? = sampleStoredList[0]? ∧
    (deleteItem 1 sampleStoredList).length = sampleStoredList.length - 1 ∧
    (deleteItem 1 sampleStoredList)[0]? = sampleStoredList[0]? ∧
    (deleteItem 1 sampleStoredList)[1]? = sampleStoredList[1 + 1]? ∧
    (toggleComplete 1 sampleStoredList).length = sampleStoredList.length ∧
    (toggleComplete 1 sampleStoredList)[0]? = sampleStoredList[0]? :=
  ⟨(claim_C2.1 sampleInput sampleStoredList (by decide) (by decide) (by decide)).1,
   (claim_C2.1 sampleInput sampleStoredList (by decide) (by decide) (by decide)).2 0
     (by decide),
   (claim_C2.2.1 sampleStoredList 1 (by decide) (by decide)).1,
   (claim_C2.2.1 sampleStoredList 1 (by decide) (by decide)).2.1 0 (by decide),
   (claim_C2.2.1 sampleStoredList 1 (by decide) (by decide)).2.2 1 (by decide),
   (claim_C2.2.2 sampleStoredList 1 (by decide) (by decide)).1,
   (claim_C2.2.2 sampleStoredList 1 (by decide) (by decide)).2.1 0 (by decide)⟩

/-- C3: categorization puts every entry of the loaded sequence in
exactly one bucket: completed tasks (flag true) go to the completed
bucket regardless of date; uncompleted tasks whose date, normalized to
midnight, equals the current date normalized to midnight go to today
(never future); every other uncompleted task (future-dated, past-dated,
absent or unparseable date) goes to future.  The three membership
characterizations below are mutually exclusive and exhaustive, so each
entry lands in exactly one bucket. -/
theorem claim_C3 : ∀ (l : List Task) (today : Int) (e : Entry),
    (e ∈ (renderBuckets l today).completedTasks ↔
        e ∈ entriesOf l ∧ e.item.completed = true) ∧
    (e ∈ (renderBuckets l today).todayTasks ↔
        e ∈ entriesOf l ∧ e.item.completed = false ∧
          taskDateValue e.item.date = some today) ∧
    (e ∈ (renderBuckets l today).futureTasks ↔
        e ∈ entriesOf l ∧ e.item.completed = false ∧
          ¬taskDateValue e.item.date = some today) := by
  intro l today e
  have h := mem_partitionEntries today (entriesOf l) e
  rw [renderBuckets_eq]
  simp only [mem_sortByLe]
  exact ⟨h.2.2, h.1, h.2.1⟩

/-- C4: after categorization the today and future buckets are sorted
ascending by task date and the completed bucket descending (whenever
two entries both carry parseable dates — entries without a parseable
date give the comparator NaN, for which the sort imposes no order);
and the two concrete examples of the spec render in the stated order. -/
theorem claim_C4 :
    (∀ (l : List Task) (today : Int),
        (renderBuckets l today).todayTasks.Pairwise dateOrderAsc ∧
        (renderBuckets l today).futureTasks.Pairwise dateOrderAsc ∧
        (renderBuckets l today).completedTasks.Pairwise dateOrderDesc) ∧
    (renderBuckets sampleFutureList sampleToday).futureTasks.map
        (fun e => e.item.date) = ["2024-01-05", "2024-01-10", "2024-01-20"] ∧
    (renderBuckets sampleCompletedList sampleToday).completedTasks.map
        (fun e => e.item.date) = ["2024-03-01", "2024-02-01"] := by
  refine ⟨fun l today => ?_, by decide, by decide⟩
  rw [renderBuckets_eq]
  exact ⟨pairwise_asc_sortByLe _, pairwise_asc_sortByLe _, pairwise_desc_sortByLe _⟩

/-- C5: a save/load round trip is lossless: loading the string written
by save yields exactly the saved array value, and decoding that array
recovers every record field for field. -/
theorem claim_C5 : ∀ l : List Task,
    loadTodoList (some (saveTodoList l)) = Except.ok (encodeTasks l) ∧
    decodeTasks (encodeTasks l) = some l :=
  fun l => ⟨loadTodoList_saveTodoList l, decodeTasks_encodeTasks l⟩

/-- C6 (corrected), counterexample to the claim as stated: with the
whitespace-only name " " all three input fields are nonempty, yet
addItem raises the validation alert and leaves the sequence unchanged,
because the code validates the TRIMMED name — contradicting the
claim's "otherwise it constructs a record ... and appends it". -/
theorem claim_C6_counterexample :
    ({ itemName := " ", itemDeadline := "2024-01-01",
       itemPriority := "low" } : InputState).itemName ≠ "" ∧
    ({ itemName := " ", itemDeadline := "2024-01-01",
       itemPriority := "low" } : InputState).itemDeadline ≠ "" ∧
    ({ itemName := " ", itemDeadline := "2024-01-01",
       itemPriority := "low" } : InputState).itemPriority ≠ "" ∧
    (addItem { itemName := " ", itemDeadline := "2024-01-01", itemPriority := "low" }
        []).alerted = true ∧
    (addItem { itemName := " ", itemDeadline := "2024-01-01", itemPriority := "low" }
        []).todoList = [] := by
  refine ⟨by decide, by decide, by decide, by decide, by decide⟩

/-- C6 (amended): if the trimmed name, the deadline or the priority is
empty, addItem alerts and changes nothing (neither the sequence nor the
input fields); otherwise it appends the record built from the trimmed
name with completed = false, clears the three input fields and does not
alert. -/
theorem claim_C6 : ∀ (inp : InputState) (l : List Task),
    ((jsTrim inp.itemName = "" ∨ inp.itemDeadline = "" ∨ inp.itemPriority = "") →
        addItem inp l = { todoList := l, inputs := inp, alerted := true }) ∧
    (jsTrim inp.itemName ≠ "" → inp.itemDeadline ≠ "" → inp.itemPriority ≠ "" →
        addItem inp l =
          { todoList := l ++ [{ name := jsTrim inp.itemName, date := inp.itemDeadline,
                                priority := inp.itemPriority, completed := false }],
            inputs := { itemName := "", itemDeadline := "", itemPriority := "" },
            alerted := false }) :=
  fun inp l => ⟨addItem_invalid inp l, addItem_valid inp l⟩

/-- Witness for C6: the whitespace-only name aborts with no change, and
valid inputs append the new record and clear the fields. -/
theorem claim_C6_witness :
    addItem { itemName := " ", itemDeadline := "2024-01-01", itemPriority := "low" } [] =
      { todoList := [],
        inputs := { itemName := " ", itemDeadline := "2024-01-01", itemPriority := "low" },
        alerted := true } ∧
    addItem sampleInput [] =
      { todoList := [{ name := "write spec", date := "2024-05-05",
                       priority := "high", completed := false }],
        inputs := { itemName := "", itemDeadline := "", itemPriority := "" },
        alerted := false } :=
  ⟨(claim_C6 { itemName := " ", itemDeadline := "2024-01-01", itemPriority := "low" } []).1
      (Or.inl (by decide)),
   (claim_C6 sampleInput []).2 (by decide) (by decide) (by decide)⟩

/-- C7: delete and toggle with any index outside the valid range
(negative or at least the length) are silent no-ops: the sequence is
returned unchanged and, the functions being total, no error is
raised. -/
theorem claim_C7 : ∀ (l : List Task) (i : Int),
    ¬(0 ≤ i ∧ i < (l.length : Int)) →
    deleteItem i l = l ∧ toggleComplete i l = l :=
  fun l i h => ⟨deleteItem_out_of_range i l h, toggleComplete_out_of_range i l h⟩

/-- Witness for C7: index 5 and index -1 on the three-record store. -/
theorem claim_C7_witness :
    deleteItem 5 sampleStoredList = sampleStoredList ∧
    toggleComplete (-1) sampleStoredList = sampleStoredList :=
  ⟨(claim_C7 sampleStoredList 5 (by decide)).1,
   (claim_C7 sampleStoredList (-1) (by decide)).2⟩

/-- C8: toggling completion twice at the same index restores the whole
sequence, in particular the targeted record's completed flag — toggle
is an involution (for an out-of-range index both calls are no-ops, so
the identity holds for every index). -/
theorem claim_C8 : ∀ (l : List Task) (i : Int),
    toggleComplete i (toggleComplete i l) = l :=
  fun l i => toggleComplete_toggleComplete i l

/-- C9: deleting a valid index i yields take i ++ drop (i+1): length
n-1, records before i at their old positions, and every record after i
renumbered down by one with fields intact (original relative order). -/
theorem claim_C9 : ∀ (l : List Task) (i : Int), 0 ≤ i → i < (l.length : Int) →
    deleteItem i l = l.take i.toNat ++ l.drop (i.toNat + 1) ∧
    (deleteItem i l).length = l.length - 1 ∧
    (∀ j : Nat, j < i.toNat → (deleteItem i l)[j]? = l[j]?) ∧
    (∀ j : Nat, i.toNat ≤ j → (deleteItem i l)[j]? = l[j + 1]?) := by
  intro l i h1 h2
  have hi : i.toNat < l.length := by omega
  rw [deleteItem_in_range i l ⟨h1, h2⟩]
  exact ⟨List.eraseIdx_eq_take_drop_succ l i.toNat,
    List.length_eraseIdx_of_lt hi,
    fun j hj => List.getElem?_eraseIdx_of_lt l i.toNat j hj,
    fun j hj => List.getElem?_eraseIdx_of_ge l i.toNat j hj⟩

/-- Witness for C9: deleting index 0 of the three-record store. -/
theorem claim_C9_witness :
    deleteItem 0 sampleStoredList =
      sampleStoredList.take 0 ++ sampleStoredList.drop 1 ∧
    (deleteItem 0 sampleStoredList).length = sampleStoredList.length - 1 ∧
    (deleteItem 0 sampleStoredList)[0]? = sampleStoredList[0 + 1]? :=
  ⟨(claim_C9 sampleStoredList 0 (by decide) (by decide)).1,
   (claim_C9 sampleStoredList 0 (by decide) (by decide)).2.1,
   (claim_C9 sampleStoredList 0 (by decide) (by decide)).2.2.2 0 (by decide)⟩

/-- C10: an uncompleted task with an absent (empty) date field is
categorized into the future bucket and never into today; and a task is
in the today bucket only when its date field is present (nonempty),
parses as a calendar date, and that date equals the current date. -/
theorem claim_C10 : ∀ (l : List Task) (today : Int) (e : Entry),
    (e ∈ entriesOf l → e.item.completed = false → e.item.date = "" →
        e ∈ (renderBuckets l today).futureTasks ∧
          e ∉ (renderBuckets l today).todayTasks) ∧
    (e ∈ (renderBuckets l today).todayTasks →
        e.item.date ≠ "" ∧ ∃ d, jsDateDay e.item.date = some d ∧ d = today) := by
  intro l today e
  have h := mem_partitionEntries today (entriesOf l) e
  rw [renderBuckets_eq]
  simp only [mem_sortByLe]
  constructor
  · intro hmem hc hdate
    have hnone : taskDateValue e.item.date = none := by
      unfold taskDateValue
      rw [if_pos hdate]
    constructor
    · exact h.2.1.2 ⟨hmem, hc, by rw [hnone]; exact fun hx => nomatch hx⟩
    · intro hin
      have := (h.1.1 hin).2.2
      rw [hnone] at this
      exact nomatch this
  · intro hin
    have hd := (h.1.1 hin).2.2
    unfold taskDateValue at hd
    by_cases hdate : e.item.date = ""
    · rw [if_pos hdate] at hd
      exact absurd hd (fun hx => nomatch hx)
    · rw [if_neg hdate] at hd
      exact ⟨hdate, today, hd, rfl⟩

/-- Witness for C10: an uncompleted task with an empty date lands in
future and not in today. -/
theorem claim_C10_witness :
    (⟨sampleTask "x" "" false, 0⟩ : Entry) ∈
        (renderBuckets [sampleTask "x" "" false] sampleToday).futureTasks ∧
    (⟨sampleTask "x" "" false, 0⟩ : Entry) ∉
        (renderBuckets [sampleTask "x" "" false] sampleToday).todayTasks :=
  (claim_C10 [sampleTask "x" "" false] sampleToday ⟨sampleTask "x" "" false, 0⟩).1
    (by decide) (by decide) (by decide)

end TodoApp
